import Mathlib

set_option maxHeartbeats 1000000

/-!
Verification development for the fadelang lexical front end
(src/fll/src/token.rs, src/fll/src/tokenizer.rs, src/fll/src/source.rs).

The data model and the tokenizer loop are shallowly embedded below,
translated from the Rust source.  The `Source` collaborator only supplies
the materialized string, so `tokenize` here takes the string directly.
The Rust loop iterates over a `Peekable<Chars>`; we embed it as a
structurally recursive function over `List Char` with a fuel parameter
(one unit of fuel per loop iteration; every iteration consumes at least
one character, so `length + 1` fuel always suffices, which is proved
below).  Rust panics (`panic!("Character ... was not handled")` and the
`chars.peek().unwrap()` on `None` in the `->` lookahead) are embedded as
`Except.error` values, since a panic aborts the call and yields no token
sequence.
-/

/-- BracketType from src/fll/src/token.rs. -/
inductive BracketType where
  | opening
  | closing
deriving DecidableEq, Repr

/-- OperatorType from src/fll/src/token.rs (all 41 enum members). -/
inductive OperatorType where
  | scopeAccessor
  | memberAccessor
  | genericBlockBegin
  | genericBlockEnd
  | typeSpecifier
  | returnType
  | commaSeparator
  | statementTerminator
  | addition
  | subtraction
  | multiplication
  | division
  | modulo
  | equals
  | notEquals
  | lessThan
  | lessThanOrEqual
  | greaterThan
  | greaterThanOrEqual
  | logicalAnd
  | logicalOr
  | logicalNot
  | bitwiseAnd
  | bitwiseXOr
  | bitwiseOr
  | bitwiseNot
  | bitwiseRightShift
  | bitwiseLeftShift
  | valueAssignment
  | additionAssignment
  | subtractionAssignment
  | multiplicationAssignment
  | divisionAssignment
  | moduloAssignment
  | increment
  | decrement
  | bitwiseRightShiftAssignment
  | bitwiseLeftShiftAssignment
  | bitwiseAndAssignment
  | bitwiseXOrAssignment
  | bitwiseOrAssignment
deriving DecidableEq, Repr

/-- The concrete token structs of src/fll/src/token.rs (EndOfFile, NewLine,
Whitespace, Keyword, Identifier, Parenthesis, Bracket, Brace, Operator),
collected into one sum type with each struct's payload fields. -/
inductive Token where
  | endOfFile
  | newLine
  | whitespace
  | keyword (text : String)
  | identifier (text : String)
  | parenthesis (bracketType : BracketType)
  | bracket (bracketType : BracketType)
  | brace (bracketType : BracketType)
  | operator (operatorType : OperatorType)
deriving DecidableEq, Repr

/-- Keyword::is_valid_char from src/fll/src/token.rs:
`('a'..='z').contains(character)`. -/
def Keyword.is_valid_char (c : Char) : Bool :=
  'a' ≤ c && c ≤ 'z'

/-- Identifier::is_valid_char from src/fll/src/token.rs. -/
def Identifier.is_valid_char (c : Char) (beginning : Bool) : Bool :=
  ('a' ≤ c && c ≤ 'z')
    || ('A' ≤ c && c ≤ 'Z')
    || c == '_'
    || (if beginning then false else ('0' ≤ c && c ≤ '9'))

/-- is_keyword from src/fll/src/token.rs: `matches!(string, "u8" | "return")`. -/
def is_keyword (s : String) : Bool :=
  s == "u8" || s == "return"

/-- CaretPos from src/fll/src/tokenizer.rs (usize fields; the inputs reachable
through a Rust string are far below the usize bound, so Nat is used). -/
structure CaretPos where
  line : Nat
  column : Nat
deriving DecidableEq, Repr

/-- CaretPos::reset_column. -/
def CaretPos.reset_column (p : CaretPos) : CaretPos :=
  { p with column := 1 }

/-- CaretPos::increment_line. -/
def CaretPos.increment_line (p : CaretPos) : CaretPos :=
  { p with line := p.line + 1 }

/-- CaretPos::increment_column. -/
def CaretPos.increment_column (p : CaretPos) : CaretPos :=
  { p with column := p.column + 1 }

/-- CaretPos::new_line. -/
def CaretPos.new_line (p : CaretPos) : CaretPos :=
  p.increment_line.reset_column

/-- CaretPos::process_char: on None do nothing; otherwise increment the
column unconditionally, then on a newline apply new_line. -/
def CaretPos.process_char (p : CaretPos) (c : Option Char) : CaretPos :=
  match c with
  | none => p
  | some ch =>
    let p1 := p.increment_column
    if ch = '\n' then p1.new_line else p1

/-- The two failure channels of Tokenizer::tokenize, plus the fuel artifact
of this embedding:
 - `unhandledChar c` is `panic!("Character '{}' was not handled", c)`;
 - `peekUnwrapPanic` is the `chars.peek().unwrap()` panic raised when a
   `-` is the last character of the input;
 - `fuelExhausted` never occurs when the fuel exceeds the input length
   (proved below); the Rust loop has no such case. -/
inductive LexError where
  | unhandledChar (c : Char)
  | peekUnwrapPanic
  | fuelExhausted
deriving DecidableEq, Repr

/-- skipSpaces embeds `while let Some(' ') = chars.peek() { chars.next(); }`
(the whitespace-run consumption inside Tokenizer::tokenize). -/
def skipSpaces : List Char → List Char
  | [] => []
  | c :: rest => if c = ' ' then skipSpaces rest else c :: rest

/-- scanWord embeds the greedy identifier/keyword scan loop of
Tokenizer::tokenize: keep consuming while the peeked character satisfies
`Identifier::is_valid_char(peek, buf.is_empty()) || Keyword::is_valid_char(peek)`. -/
def scanWord (buf : String) : List Char → String × List Char
  | [] => (buf, [])
  | c :: rest =>
    if Identifier.is_valid_char c buf.isEmpty || Keyword.is_valid_char c then
      scanWord (buf.push c) rest
    else
      (buf, c :: rest)

/-- The outcome of one classification step of the tokenizer loop body. -/
inductive StepResult where
  | emit (t : Token) (rest : List Char)
  | skip (rest : List Char)
  | fail (e : LexError)
deriving DecidableEq, Repr

/-- One pass through the if-else classification chain of
Tokenizer::tokenize (src/fll/src/tokenizer.rs lines 26-78), for the
current character `c` and the not-yet-consumed characters `rest`.
The chain order is exactly the source order.  In the `-` branch, the Rust
condition `char_cur == '-' && chars.peek().unwrap() == &'>'` panics when
the peek is None; when the peek is some non-`>` character the condition is
false and `-` falls through the remaining branches (`+`, braces, space,
newline, identifier/keyword start), none of which accept `-`, landing in
the final `panic!("Character '-' was not handled")`; that fall-through
outcome is written directly here.  `'\x7b'` and `'\x7d'` are the opening
and closing brace characters. -/
def classifyStep (c : Char) (rest : List Char) : StepResult :=
  if c = '(' then .emit (.parenthesis .opening) rest
  else if c = ')' then .emit (.parenthesis .closing) rest
  else if c = '<' then .emit (.operator .genericBlockBegin) rest
  else if c = '>' then .emit (.operator .genericBlockEnd) rest
  else if c = ';' then .emit (.operator .statementTerminator) rest
  else if c = ':' then .emit (.operator .typeSpecifier) rest
  else if c = ',' then .emit (.operator .commaSeparator) rest
  else if c = '-' then
    match rest with
    | [] => .fail .peekUnwrapPanic
    | next :: rest2 =>
      if next = '>' then .emit (.operator .returnType) rest2
      else .fail (.unhandledChar c)
  else if c = '+' then .emit (.operator .addition) rest
  else if c = '\x7b' then .emit (.brace .opening) rest
  else if c = '\x7d' then .emit (.brace .closing) rest
  else if c = ' ' then .emit .whitespace (skipSpaces rest)
  else if c = '\n' then .emit .newLine rest
  else if Identifier.is_valid_char c true || Keyword.is_valid_char c then
    match scanWord (String.singleton c) rest with
    | (buf, rest2) =>
      if buf.isEmpty then .skip rest2
      else if is_keyword buf then .emit (.keyword buf) rest2
      else .emit (.identifier buf) rest2
  else .fail (.unhandledChar c)

/-- Prepend an emitted token to the outcome of the rest of the loop
(`tokens.push(...)` followed by continuing the loop; a later panic
discards the tokens pushed so far, hence errors propagate unchanged). -/
def emitTok (t : Token) (r : Except LexError (List Token × CaretPos)) :
    Except LexError (List Token × CaretPos) :=
  match r with
  | .ok (ts, p) => .ok (t :: ts, p)
  | .error e => .error e

/-- The main loop of Tokenizer::tokenize.  Each iteration pulls the next
character, feeds it (or the end-of-input None) to CaretPos::process_char
before classifying, then either stops with EndOfFile, emits a token and
continues on the characters the step left unconsumed, or aborts.
The fuel counts loop iterations; each iteration consumes at least one
character, so any fuel above the list length behaves identically
(tokenizeLoop_fuel_congr below). -/
def tokenizeLoop : Nat → CaretPos → List Char → Except LexError (List Token × CaretPos)
  | 0, _, _ => .error .fuelExhausted
  | _ + 1, pos, [] => .ok ([Token.endOfFile], pos.process_char none)
  | fuel + 1, pos, c :: rest =>
    match classifyStep c rest with
    | .emit t rest2 => emitTok t (tokenizeLoop fuel (pos.process_char (some c)) rest2)
    | .skip rest2 => tokenizeLoop fuel (pos.process_char (some c)) rest2
    | .fail e => .error e

/-- Tokenizer::tokenize on the materialized source string, starting from
the default caret position (1, 1).  Returns the token sequence together
with the tokenizer's final caret_pos (Tokenizer::get_caret_pos). -/
def tokenize (s : String) : Except LexError (List Token × CaretPos) :=
  tokenizeLoop (s.data.length + 1) ⟨1, 1⟩ s.data

/-- The single-character classification rules of the chain heads:
the structural symbols, space, newline, and the identifier-start or
keyword character predicates.  A character failing this predicate and
reached at the top of the loop is the argument of the
`panic!("Character ... was not handled")` abort (for `-` the abort also
needs the lookahead to reject). -/
def headRecognized (c : Char) : Bool :=
  c == '(' || c == ')' || c == '<' || c == '>' || c == ';' || c == ':'
    || c == ',' || c == '+' || c == '\x7b' || c == '\x7d' || c == ' ' || c == '\n'
    || Identifier.is_valid_char c true || Keyword.is_valid_char c

/-- The characters some classification rule can consume somewhere: the
structural symbols, `-` (the lookahead rule), space, newline, and any
character accepted by the identifier predicate (in non-beginning
position, so including digits) or the keyword predicate. -/
def recognizedChar (c : Char) : Bool :=
  c == '(' || c == ')' || c == '<' || c == '>' || c == ';' || c == ':'
    || c == ',' || c == '-' || c == '+' || c == '\x7b' || c == '\x7d'
    || c == ' ' || c == '\n'
    || Identifier.is_valid_char c false || Keyword.is_valid_char c

/-- The seven OperatorType members the classification chain can emit:
GenericBlockBegin for a bare `<`, GenericBlockEnd for a bare `>`,
StatementTerminator, TypeSpecifier, CommaSeparator, ReturnType for `->`,
and Addition. -/
def emittedOperator (op : OperatorType) : Bool :=
  match op with
  | .genericBlockBegin => true
  | .genericBlockEnd => true
  | .statementTerminator => true
  | .typeSpecifier => true
  | .commaSeparator => true
  | .returnType => true
  | .addition => true
  | _ => false

/-- Tokens the loop body can push before the final EndOfFile, stated as
the properties needed below: never EndOfFile, and an Operator only with
one of the seven kinds the chain mentions. -/
def emitOkB (t : Token) : Bool :=
  match t with
  | .endOfFile => false
  | .operator op => emittedOperator op
  | _ => true

/-- The static Rust types involved in the `PartialEq for dyn Token`
implementation of src/fll/src/token.rs: `dyn Token` itself and the nine
concrete token structs.  Distinct constructors model distinct
`TypeId`s. -/
inductive RustType where
  | dynToken
  | endOfFile
  | newLine
  | whitespace
  | keyword
  | identifier
  | parenthesis
  | bracket
  | brace
  | operator
deriving DecidableEq, Repr

/-- The dynamic (concrete) type of a token value, i.e. the `TypeId` of the
struct stored behind `Box<dyn Token>`. -/
def tokenKind : Token → RustType
  | .endOfFile => .endOfFile
  | .newLine => .newLine
  | .whitespace => .whitespace
  | .keyword _ => .keyword
  | .identifier _ => .identifier
  | .parenthesis _ => .parenthesis
  | .bracket _ => .bracket
  | .brace _ => .brace
  | .operator _ => .operator

/-- The eq of `impl<Rhs: ?Sized + 'static> PartialEq<Rhs> for dyn Token`
(src/fll/src/token.rs lines 3-9): it compares `TypeId::of::<Self>()`,
where `Self` is the type `dyn Token` itself, with `TypeId::of::<Rhs>()`,
where `Rhs` is the static type of the right-hand side.  Both operands'
values are ignored (the right-hand value is bound to `_` in the source);
`rhsT` is the static `Rhs` type at the comparison site, which is
`RustType.dynToken` when two boxed `dyn Token`s are compared. -/
def dynTokenPartialEq (rhsT : RustType) (_selfVal _rhsVal : Token) : Bool :=
  RustType.dynToken == rhsT

theorem emitTok_ok_iff (t : Token) (r : Except LexError (List Token × CaretPos))
    (toks : List Token) (p : CaretPos) :
    emitTok t r = .ok (toks, p) ↔ ∃ ts, r = .ok (ts, p) ∧ toks = t :: ts := by
  cases r with
  | ok v =>
    cases v with
    | mk ts q =>
      simp only [emitTok, Except.ok.injEq, Prod.mk.injEq]
      constructor
      · rintro ⟨h1, h2⟩
        exact ⟨ts, ⟨rfl, h2⟩, h1.symm⟩
      · rintro ⟨ts2, ⟨h3, h4⟩, h2⟩
        exact ⟨by rw [h2, h3], h4⟩
  | error e => simp [emitTok]

theorem emitTok_error_iff (t : Token) (r : Except LexError (List Token × CaretPos))
    (e : LexError) :
    emitTok t r = .error e ↔ r = .error e := by
  cases r with
  | ok v => cases v; simp [emitTok]
  | error e2 => simp [emitTok]

theorem Identifier.is_valid_char_mono (c : Char) (b : Bool)
    (h : Identifier.is_valid_char c b = true) :
    Identifier.is_valid_char c false = true := by
  cases b with
  | false => exact h
  | true =>
    simp only [Identifier.is_valid_char, Bool.or_eq_true] at h ⊢
    simp only [if_true, if_false, Bool.false_eq_true, or_false] at h
    tauto

theorem skipSpaces_length (l : List Char) : (skipSpaces l).length ≤ l.length := by
  induction l with
  | nil => simp [skipSpaces]
  | cons c rest ih =>
    simp only [skipSpaces]
    split
    · exact ih.trans (Nat.le_succ _)
    · simp

theorem skipSpaces_subset (l : List Char) (x : Char) (h : x ∈ skipSpaces l) : x ∈ l := by
  induction l with
  | nil => simp [skipSpaces] at h
  | cons c rest ih =>
    simp only [skipSpaces] at h
    split at h
    · exact List.mem_cons_of_mem _ (ih h)
    · exact h

theorem mem_skipSpaces_or_space (l : List Char) (x : Char) (h : x ∈ l) :
    x ∈ skipSpaces l ∨ x = ' ' := by
  induction l with
  | nil => simp at h
  | cons c rest ih =>
    simp only [skipSpaces]
    rcases List.mem_cons.mp h with rfl | h2
    · split
      · right; assumption
      · left; exact List.mem_cons_self _ _
    · split
      · exact ih h2
      · left; exact List.mem_cons_of_mem _ h2

theorem skipSpaces_replicate_append (n : Nat) (rest : List Char) :
    skipSpaces (List.replicate n ' ' ++ rest) = skipSpaces rest := by
  induction n with
  | zero => simp
  | succ n ih => simpa [List.replicate_succ, skipSpaces] using ih

theorem skipSpaces_of_head_ne (rest : List Char) (h : rest.head? ≠ some ' ') :
    skipSpaces rest = rest := by
  cases rest with
  | nil => rfl
  | cons c tail =>
    simp only [List.head?] at h
    simp only [skipSpaces]
    rw [if_neg (by intro hc; exact h (by rw [hc]))]

theorem scanWord_snd_length (l : List Char) : ∀ buf, ((scanWord buf l).2).length ≤ l.length := by
  induction l with
  | nil => intro buf; simp [scanWord]
  | cons c rest ih =>
    intro buf
    simp only [scanWord]
    split
    · exact (ih _).trans (Nat.le_succ _)
    · simp

theorem scanWord_snd_subset (l : List Char) :
    ∀ buf x, x ∈ (scanWord buf l).2 → x ∈ l := by
  induction l with
  | nil => intro buf x h; simp [scanWord] at h
  | cons c rest ih =>
    intro buf x h
    simp only [scanWord] at h
    split at h
    · exact List.mem_cons_of_mem _ (ih _ _ h)
    · exact h

theorem mem_scanWord_snd_or_valid (l : List Char) :
    ∀ buf x, x ∈ l → x ∈ (scanWord buf l).2
      ∨ Identifier.is_valid_char x false = true ∨ Keyword.is_valid_char x = true := by
  induction l with
  | nil => intro buf x h; simp at h
  | cons c rest ih =>
    intro buf x h
    simp only [scanWord]
    rcases List.mem_cons.mp h with rfl | h2
    · split
      · rename_i hcond
        rcases Bool.or_eq_true .. |>.mp hcond with h3 | h3
        · right; left; exact Identifier.is_valid_char_mono _ _ h3
        · right; right; exact h3
      · left; exact List.mem_cons_self _ _
    · split
      · exact ih _ _ h2
      · left; exact List.mem_cons_of_mem _ h2

theorem recognizedChar_of_scan_start (c : Char)
    (h : (Identifier.is_valid_char c true || Keyword.is_valid_char c) = true) :
    recognizedChar c = true := by
  rcases Bool.or_eq_true .. |>.mp h with h2 | h2
  · have h3 := Identifier.is_valid_char_mono c true h2
    simp [recognizedChar, h3]
  · simp [recognizedChar, h2]

theorem recognizedChar_of_valid (x : Char)
    (h : Identifier.is_valid_char x false = true ∨ Keyword.is_valid_char x = true) :
    recognizedChar x = true := by
  rcases h with h2 | h2 <;> simp [recognizedChar, h2]

/-- Full case analysis of one classification step: it either emits an
acceptable token and leaves a sub-list of the unconsumed characters in
which only recognized characters were skipped, or skips (only via the
dead empty-buffer case), or fails with the unhandled-character panic on
the current character (which then satisfies no head rule), or fails with
the lookahead unwrap panic, which happens exactly for a `-` with nothing
after it. -/
theorem classifyStep_spec (c : Char) (rest : List Char) :
    (∃ t rest2, classifyStep c rest = .emit t rest2
        ∧ emitOkB t = true
        ∧ recognizedChar c = true
        ∧ rest2.length ≤ rest.length
        ∧ (∀ x, x ∈ rest2 → x ∈ rest)
        ∧ (∀ x, x ∈ rest → x ∈ rest2 ∨ recognizedChar x = true))
    ∨ (∃ rest2, classifyStep c rest = .skip rest2
        ∧ recognizedChar c = true
        ∧ rest2.length ≤ rest.length
        ∧ (∀ x, x ∈ rest2 → x ∈ rest)
        ∧ (∀ x, x ∈ rest → x ∈ rest2 ∨ recognizedChar x = true))
    ∨ (classifyStep c rest = .fail (.unhandledChar c) ∧ headRecognized c = false)
    ∨ (classifyStep c rest = .fail .peekUnwrapPanic ∧ c = '-' ∧ rest = []) := by
  by_cases h1 : c = '('
  · subst h1
    exact .inl ⟨.parenthesis .opening, rest, rfl, rfl, rfl, Nat.le_refl _, fun x hx => hx, fun x hx => .inl hx⟩
  by_cases h2 : c = ')'
  · subst h2
    exact .inl ⟨.parenthesis .closing, rest, by simp [classifyStep, h1], rfl, rfl, Nat.le_refl _,
      fun x hx => hx, fun x hx => .inl hx⟩
  by_cases h3 : c = '<'
  · subst h3
    exact .inl ⟨.operator .genericBlockBegin, rest, by simp [classifyStep, h1, h2], rfl, rfl, Nat.le_refl _,
      fun x hx => hx, fun x hx => .inl hx⟩
  by_cases h4 : c = '>'
  · subst h4
    exact .inl ⟨.operator .genericBlockEnd, rest, by simp [classifyStep, h1, h2, h3], rfl, rfl, Nat.le_refl _,
      fun x hx => hx, fun x hx => .inl hx⟩
  by_cases h5 : c = ';'
  · subst h5
    exact .inl ⟨.operator .statementTerminator, rest, by simp [classifyStep, h1, h2, h3, h4], rfl, rfl, Nat.le_refl _,
      fun x hx => hx, fun x hx => .inl hx⟩
  by_cases h6 : c = ':'
  · subst h6
    exact .inl ⟨.operator .typeSpecifier, rest, by simp [classifyStep, h1, h2, h3, h4, h5], rfl, rfl, Nat.le_refl _,
      fun x hx => hx, fun x hx => .inl hx⟩
  by_cases h7 : c = ','
  · subst h7
    exact .inl ⟨.operator .commaSeparator, rest, by simp [classifyStep, h1, h2, h3, h4, h5, h6], rfl, rfl,
      Nat.le_refl _, fun x hx => hx, fun x hx => .inl hx⟩
  by_cases h8 : c = '-'
  · subst h8
    have he : classifyStep '-' rest = (match rest with
        | [] => .fail .peekUnwrapPanic
        | next :: rest2 =>
          if next = '>' then .emit (.operator .returnType) rest2
          else .fail (.unhandledChar '-')) := by
      simp [classifyStep, h1, h2, h3, h4, h5, h6, h7]
    cases rest with
    | nil => exact .inr (.inr (.inr ⟨he, rfl, rfl⟩))
    | cons next rest2 =>
      by_cases hnext : next = '>'
      · subst hnext
        refine .inl ⟨.operator .returnType, rest2, by rw [he]; simp, rfl, rfl, Nat.le_succ _,
          fun x hx => List.mem_cons_of_mem _ hx, fun x hx => ?_⟩
        rcases List.mem_cons.mp hx with rfl | hx2
        · exact .inr rfl
        · exact .inl hx2
      · exact .inr (.inr (.inl ⟨by rw [he]; simp [hnext], rfl⟩))
  by_cases h9 : c = '+'
  · subst h9
    exact .inl ⟨.operator .addition, rest, by simp [classifyStep, h1, h2, h3, h4, h5, h6, h7, h8], rfl, rfl,
      Nat.le_refl _, fun x hx => hx, fun x hx => .inl hx⟩
  by_cases h10 : c = '\x7b'
  · subst h10
    exact .inl ⟨.brace .opening, rest, by simp [classifyStep, h1, h2, h3, h4, h5, h6, h7, h8, h9], rfl,
      rfl, Nat.le_refl _, fun x hx => hx, fun x hx => .inl hx⟩
  by_cases h11 : c = '\x7d'
  · subst h11
    exact .inl ⟨.brace .closing, rest, by simp [classifyStep, h1, h2, h3, h4, h5, h6, h7, h8, h9, h10],
      rfl, rfl, Nat.le_refl _, fun x hx => hx, fun x hx => .inl hx⟩
  by_cases h12 : c = ' '
  · subst h12
    refine .inl ⟨.whitespace, skipSpaces rest,
      by simp [classifyStep, h1, h2, h3, h4, h5, h6, h7, h8, h9, h10, h11], rfl, rfl,
      skipSpaces_length rest, fun x hx => skipSpaces_subset rest x hx, fun x hx => ?_⟩
    rcases mem_skipSpaces_or_space rest x hx with hx2 | hx2
    · exact .inl hx2
    · exact .inr (by rw [hx2]; decide)
  by_cases h13 : c = '\n'
  · subst h13
    exact .inl ⟨.newLine, rest,
      by simp [classifyStep, h1, h2, h3, h4, h5, h6, h7, h8, h9, h10, h11, h12], rfl, rfl,
      Nat.le_refl _, fun x hx => hx, fun x hx => .inl hx⟩
  by_cases h14 : (Identifier.is_valid_char c true || Keyword.is_valid_char c) = true
  · have he : classifyStep c rest = (match scanWord (String.singleton c) rest with
        | (buf, rest2) =>
          if buf.isEmpty then .skip rest2
          else if is_keyword buf then .emit (.keyword buf) rest2
          else .emit (.identifier buf) rest2) := by
      simp [classifyStep, h1, h2, h3, h4, h5, h6, h7, h8, h9, h10, h11, h12, h13, h14]
    cases hsw : scanWord (String.singleton c) rest with
    | mk buf rest2 =>
      rw [hsw] at he
      have hlen : rest2.length ≤ rest.length := by
        have hl := scanWord_snd_length rest (String.singleton c)
        rw [hsw] at hl
        exact hl
      have hsub : ∀ x, x ∈ rest2 → x ∈ rest := by
        intro x hx
        exact scanWord_snd_subset rest (String.singleton c) x (by rw [hsw]; exact hx)
      have hmem : ∀ x, x ∈ rest → x ∈ rest2 ∨ recognizedChar x = true := by
        intro x hx
        rcases mem_scanWord_snd_or_valid rest (String.singleton c) x hx with hx2 | hx2
        · rw [hsw] at hx2
          exact .inl hx2
        · exact .inr (recognizedChar_of_valid x hx2)
      have hrec := recognizedChar_of_scan_start c h14
      by_cases hemp : buf.isEmpty
      · exact .inr (.inl ⟨rest2, by rw [he]; simp [hemp], hrec, hlen, hsub, hmem⟩)
      · by_cases hkw : is_keyword buf
        · exact .inl ⟨.keyword buf, rest2, by rw [he]; simp [hemp, hkw], rfl, hrec, hlen, hsub, hmem⟩
        · exact .inl ⟨.identifier buf, rest2, by rw [he]; simp [hemp, hkw], rfl, hrec, hlen, hsub, hmem⟩
  · refine .inr (.inr (.inl ⟨by
      simp [classifyStep, h1, h2, h3, h4, h5, h6, h7, h8, h9, h10, h11, h12, h13, h14],
      ?_⟩))
    have h14b := h14
    simp only [Bool.or_eq_true, not_or, Bool.not_eq_true] at h14b
    simp [headRecognized, beq_iff_eq, h1, h2, h3, h4, h5, h6, h7, h9, h10, h11, h12, h13,
      h14b.1, h14b.2]

theorem classifyStep_emit_spec (c : Char) (rest : List Char) (t : Token) (rest2 : List Char)
    (h : classifyStep c rest = .emit t rest2) :
    emitOkB t = true ∧ recognizedChar c = true ∧ rest2.length ≤ rest.length
      ∧ (∀ x, x ∈ rest2 → x ∈ rest)
      ∧ (∀ x, x ∈ rest → x ∈ rest2 ∨ recognizedChar x = true) := by
  rcases classifyStep_spec c rest with ⟨t2, r2, he, hok, hrec, hle, hsub, hmem⟩
    | ⟨r2, he, _⟩ | ⟨he, _⟩ | ⟨he, _, _⟩ <;> rw [h] at he
  · simp only [StepResult.emit.injEq] at he
    obtain ⟨rfl, rfl⟩ := he
    exact ⟨hok, hrec, hle, hsub, hmem⟩
  · simp at he
  · simp at he
  · simp at he

theorem classifyStep_skip_spec (c : Char) (rest rest2 : List Char)
    (h : classifyStep c rest = .skip rest2) :
    recognizedChar c = true ∧ rest2.length ≤ rest.length
      ∧ (∀ x, x ∈ rest2 → x ∈ rest)
      ∧ (∀ x, x ∈ rest → x ∈ rest2 ∨ recognizedChar x = true) := by
  rcases classifyStep_spec c rest with ⟨t2, r2, he, _⟩
    | ⟨r2, he, hrec, hle, hsub, hmem⟩ | ⟨he, _⟩ | ⟨he, _, _⟩ <;> rw [h] at he
  · simp at he
  · simp only [StepResult.skip.injEq] at he
    subst he
    exact ⟨hrec, hle, hsub, hmem⟩
  · simp at he
  · simp at he

theorem classifyStep_fail_spec (c : Char) (rest : List Char) (e : LexError)
    (h : classifyStep c rest = .fail e) :
    (e = .unhandledChar c ∧ headRecognized c = false)
      ∨ (e = .peekUnwrapPanic ∧ c = '-' ∧ rest = []) := by
  rcases classifyStep_spec c rest with ⟨t2, r2, he, _⟩
    | ⟨r2, he, _⟩ | ⟨he, hhd⟩ | ⟨he, hc, hrest⟩ <;> rw [h] at he
  · simp at he
  · simp at he
  · simp only [StepResult.fail.injEq] at he
    exact .inl ⟨he, hhd⟩
  · simp only [StepResult.fail.injEq] at he
    exact .inr ⟨he, hc, hrest⟩

/-- A step of the loop with the classification outcome substituted in. -/
theorem tokenizeLoop_cons (fuel : Nat) (pos : CaretPos) (c : Char) (rest : List Char) :
    tokenizeLoop (fuel + 1) pos (c :: rest) =
      match classifyStep c rest with
      | .emit t rest2 => emitTok t (tokenizeLoop fuel (pos.process_char (some c)) rest2)
      | .skip rest2 => tokenizeLoop fuel (pos.process_char (some c)) rest2
      | .fail e => .error e := rfl

/-- Any fuel exceeding the input length gives the same result: the fuel
parameter is an artifact of the embedding, not of the Rust loop. -/
theorem tokenizeLoop_fuel_congr :
    ∀ fuel fuel2 : Nat, ∀ pos : CaretPos, ∀ l : List Char,
      l.length < fuel → l.length < fuel2 →
      tokenizeLoop fuel pos l = tokenizeLoop fuel2 pos l := by
  intro fuel
  induction fuel with
  | zero => intro fuel2 pos l h1 h2; omega
  | succ fuel ih =>
    intro fuel2 pos l h1 h2
    cases fuel2 with
    | zero => omega
    | succ fuel2 =>
      cases l with
      | nil => rfl
      | cons c rest =>
        rw [tokenizeLoop_cons, tokenizeLoop_cons]
        simp only [List.length_cons] at h1 h2
        cases hstep : classifyStep c rest with
        | emit t rest2 =>
          have hle := (classifyStep_emit_spec c rest t rest2 hstep).2.2.1
          exact congrArg (emitTok t)
            (ih fuel2 (pos.process_char (some c)) rest2 (by omega) (by omega))
        | skip rest2 =>
          have hle := (classifyStep_skip_spec c rest rest2 hstep).2.1
          exact ih fuel2 (pos.process_char (some c)) rest2 (by omega) (by omega)
        | fail e => rfl

/-- The combined loop invariant: a successful run yields a token list of
the shape `front ++ [EndOfFile]` with every front token an allowed
emission, and consumes only recognized characters; the fuel never runs
out when it exceeds the input length; the lookahead unwrap panic only
happens on all-recognized input (a trailing bare `-`); and the
unhandled-character panic names an input character satisfying no head
rule. -/
theorem tokenizeLoop_master :
    ∀ fuel : Nat, ∀ pos : CaretPos, ∀ l : List Char, l.length < fuel →
      (∀ toks p, tokenizeLoop fuel pos l = .ok (toks, p) →
        (∃ front, toks = front ++ [Token.endOfFile] ∧ ∀ t, t ∈ front → emitOkB t = true)
          ∧ (∀ x, x ∈ l → recognizedChar x = true))
      ∧ tokenizeLoop fuel pos l ≠ .error .fuelExhausted
      ∧ (tokenizeLoop fuel pos l = .error .peekUnwrapPanic →
          ∀ x, x ∈ l → recognizedChar x = true)
      ∧ (∀ c2, tokenizeLoop fuel pos l = .error (.unhandledChar c2) →
          c2 ∈ l ∧ headRecognized c2 = false) := by
  intro fuel
  induction fuel with
  | zero => intro pos l h1; omega
  | succ fuel ih =>
    intro pos l h1
    cases l with
    | nil =>
      refine ⟨?_, by simp [tokenizeLoop], by simp [tokenizeLoop], by simp [tokenizeLoop]⟩
      intro toks p h
      simp only [tokenizeLoop, Except.ok.injEq, Prod.mk.injEq] at h
      obtain ⟨rfl, rfl⟩ := h.symm
      exact ⟨⟨[], rfl, by simp⟩, by simp⟩
    | cons c rest =>
      simp only [List.length_cons] at h1
      cases hstep : classifyStep c rest with
      | emit t rest2 =>
        obtain ⟨hok, hrec, hle, hsub, hmem⟩ := classifyStep_emit_spec c rest t rest2 hstep
        obtain ⟨ihA, ihB, ihC, ihD⟩ :=
          ih (pos.process_char (some c)) rest2 (by omega)
        have hrw : tokenizeLoop (fuel + 1) pos (c :: rest)
            = emitTok t (tokenizeLoop fuel (pos.process_char (some c)) rest2) := by
          rw [tokenizeLoop_cons, hstep]
        refine ⟨?_, ?_, ?_, ?_⟩
        · intro toks p h
          rw [hrw] at h
          rw [emitTok_ok_iff] at h
          obtain ⟨ts, hts, rfl⟩ := h
          obtain ⟨⟨front, rfl, hfr⟩, hrecs⟩ := ihA ts p hts
          refine ⟨⟨t :: front, by simp, ?_⟩, ?_⟩
          · intro u hu
            rcases List.mem_cons.mp hu with rfl | hu2
            · exact hok
            · exact hfr u hu2
          · intro x hx
            rcases List.mem_cons.mp hx with rfl | hx2
            · exact hrec
            · rcases hmem x hx2 with hx3 | hx3
              · exact hrecs x hx3
              · exact hx3
        · intro h
          rw [hrw, emitTok_error_iff] at h
          exact ihB h
        · intro h
          rw [hrw, emitTok_error_iff] at h
          have hrecs := ihC h
          intro x hx
          rcases List.mem_cons.mp hx with rfl | hx2
          · exact hrec
          · rcases hmem x hx2 with hx3 | hx3
            · exact hrecs x hx3
            · exact hx3
        · intro c2 h
          rw [hrw, emitTok_error_iff] at h
          obtain ⟨hc2, hhd⟩ := ihD c2 h
          exact ⟨List.mem_cons_of_mem _ (hsub c2 hc2), hhd⟩
      | skip rest2 =>
        obtain ⟨hrec, hle, hsub, hmem⟩ := classifyStep_skip_spec c rest rest2 hstep
        obtain ⟨ihA, ihB, ihC, ihD⟩ :=
          ih (pos.process_char (some c)) rest2 (by omega)
        have hrw : tokenizeLoop (fuel + 1) pos (c :: rest)
            = tokenizeLoop fuel (pos.process_char (some c)) rest2 := by
          rw [tokenizeLoop_cons, hstep]
        refine ⟨?_, ?_, ?_, ?_⟩
        · intro toks p h
          rw [hrw] at h
          obtain ⟨hshape, hrecs⟩ := ihA toks p h
          refine ⟨hshape, ?_⟩
          intro x hx
          rcases List.mem_cons.mp hx with rfl | hx2
          · exact hrec
          · rcases hmem x hx2 with hx3 | hx3
            · exact hrecs x hx3
            · exact hx3
        · intro h
          rw [hrw] at h
          exact ihB h
        · intro h
          rw [hrw] at h
          have hrecs := ihC h
          intro x hx
          rcases List.mem_cons.mp hx with rfl | hx2
          · exact hrec
          · rcases hmem x hx2 with hx3 | hx3
            · exact hrecs x hx3
            · exact hx3
        · intro c2 h
          rw [hrw] at h
          obtain ⟨hc2, hhd⟩ := ihD c2 h
          exact ⟨List.mem_cons_of_mem _ (hsub c2 hc2), hhd⟩
      | fail e =>
        have hrw : tokenizeLoop (fuel + 1) pos (c :: rest) = .error e := by
          rw [tokenizeLoop_cons, hstep]
        rcases classifyStep_fail_spec c rest e hstep with ⟨rfl, hhd⟩ | ⟨rfl, rfl, rfl⟩
        · refine ⟨?_, ?_, ?_, ?_⟩
          · intro toks p h
            rw [hrw] at h
            simp at h
          · intro h
            rw [hrw] at h
            simp at h
          · intro h
            rw [hrw] at h
            simp at h
          · intro c2 h
            rw [hrw] at h
            simp only [Except.error.injEq, LexError.unhandledChar.injEq] at h
            subst h
            exact ⟨List.mem_cons_self _ _, hhd⟩
        · refine ⟨?_, ?_, ?_, ?_⟩
          · intro toks p h
            rw [hrw] at h
            simp at h
          · intro h
            rw [hrw] at h
            simp at h
          · intro h
            intro x hx
            rcases List.mem_cons.mp hx with rfl | hx2
            · decide
            · simp at hx2
          · intro c2 h
            rw [hrw] at h
            simp at h

theorem append_endOfFile_facts (front : List Token)
    (hfr : ∀ t, t ∈ front → emitOkB t = true) :
    (front ++ [Token.endOfFile]).getLast? = some Token.endOfFile
      ∧ (front ++ [Token.endOfFile]).count Token.endOfFile = 1 := by
  constructor
  · rw [List.getLast?_append_cons]
    rfl
  · rw [List.count_append]
    have h0 : front.count Token.endOfFile = 0 := by
      rw [List.count_eq_zero]
      intro hmem
      have h2 := hfr _ hmem
      simp [emitOkB] at h2
    rw [h0]
    rfl

/-- C1: for every finite input string, tokenize terminates (the embedding is
a total function and its fuel bound never fires), and whenever it returns a
token sequence, that sequence has length at least 1, its last element is an
EndOfFile token, and EndOfFile occurs exactly once, hence nowhere else. -/
theorem claim1_tokenize_endOfFile_invariant (s : String) :
    tokenize s ≠ Except.error LexError.fuelExhausted
      ∧ ∀ toks p, tokenize s = Except.ok (toks, p) →
          1 ≤ toks.length
            ∧ toks.getLast? = some Token.endOfFile
            ∧ toks.count Token.endOfFile = 1 := by
  obtain ⟨mA, mB, mC, mD⟩ :=
    tokenizeLoop_master (s.data.length + 1) ⟨1, 1⟩ s.data (by omega)
  refine ⟨mB, ?_⟩
  intro toks p h
  obtain ⟨⟨front, rfl, hfr⟩, _⟩ := mA toks p h
  obtain ⟨hlast, hcount⟩ := append_endOfFile_facts front hfr
  exact ⟨by simp, hlast, hcount⟩

theorem claim1_witness :
    tokenize "u8" ≠ Except.error LexError.fuelExhausted
      ∧ (1 ≤ ([Token.keyword "u8", Token.endOfFile] : List Token).length
          ∧ ([Token.keyword "u8", Token.endOfFile] : List Token).getLast?
              = some Token.endOfFile
          ∧ ([Token.keyword "u8", Token.endOfFile] : List Token).count Token.endOfFile
              = 1) :=
  ⟨(claim1_tokenize_endOfFile_invariant "u8").1,
   (claim1_tokenize_endOfFile_invariant "u8").2
     [Token.keyword "u8", Token.endOfFile] ⟨1, 2⟩ rfl⟩

/-- C2 counterexample: "x\ny\nabc" is exactly 2 newline-terminated lines
followed by a 3rd line of 3 characters with no trailing newline; tokenize
leaves the caret at (3, 2), not at (3, 1 + 3): the two characters consumed
inside the identifier scan of "abc" did not advance the caret, refuting the
claim that the caret advances for every character consumed, including those
consumed inside lookahead and run scans. -/
theorem claim2_counterexample :
    tokenize "x\ny\nabc"
        = Except.ok ([Token.identifier "x", Token.newLine, Token.identifier "y",
            Token.newLine, Token.identifier "abc", Token.endOfFile],
            (⟨3, 2⟩ : CaretPos))
      ∧ (⟨3, 2⟩ : CaretPos) ≠ (⟨3, 1 + 3⟩ : CaretPos) :=
  ⟨rfl, by decide⟩

/-- C2 amended: the caret tracker is advanced exactly once per classification
step, namely for the single character pulled at the loop head; the characters
a step consumes beyond its head (inside the arrow lookahead, a whitespace
run, or an identifier/keyword scan) do not advance it.  Consequently, after
tokenizing 2 newline-terminated lines followed by a 3rd line with no trailing
newline, the final line is 3, and the final column is 1 plus the number of
final-line characters pulled at the loop head; for "x\ny\nabc" that is the
position (3, 2). -/
theorem claim2_caret_loop_head_only :
    (∀ fuel : Nat, ∀ pos : CaretPos, ∀ c : Char, ∀ rest rest2 : List Char, ∀ t : Token,
        classifyStep c rest = .emit t rest2 →
        tokenizeLoop (fuel + 1) pos (c :: rest)
          = emitTok t (tokenizeLoop fuel (pos.process_char (some c)) rest2))
      ∧ tokenize "x\ny\nabc"
          = Except.ok ([Token.identifier "x", Token.newLine, Token.identifier "y",
              Token.newLine, Token.identifier "abc", Token.endOfFile],
              (⟨3, 2⟩ : CaretPos)) := by
  refine ⟨?_, rfl⟩
  intro fuel pos c rest rest2 t h
  rw [tokenizeLoop_cons, h]

theorem claim2_witness :
    tokenizeLoop 2 ⟨1, 1⟩ ('a' :: ['b'])
        = emitTok (Token.identifier "ab")
            (tokenizeLoop 1 (CaretPos.process_char ⟨1, 1⟩ (some 'a')) []) :=
  claim2_caret_loop_head_only.1 1 ⟨1, 1⟩ 'a' ['b'] [] (Token.identifier "ab") rfl

/-- C3 (evidence for the code bug): the eq of PartialEq for dyn Token never
inspects the runtime variant: with Rhs = dyn Token (two boxed tokens
compared) it returns true even for the distinct kinds EndOfFile and NewLine,
and with Rhs a concrete token struct it returns false even when both sides
are EndOfFile; so eq does not hold exactly when the two tokens have the same
kind. -/
theorem claim3_dyn_eq_ignores_variant :
    dynTokenPartialEq RustType.dynToken Token.endOfFile Token.newLine = true
      ∧ tokenKind Token.endOfFile ≠ tokenKind Token.newLine
      ∧ dynTokenPartialEq (tokenKind Token.endOfFile)
          Token.endOfFile Token.endOfFile = false :=
  ⟨rfl, by decide, rfl⟩

/-- C4 counterexample: tokenizing the Scenario A literal does not succeed: no
rule of the classification chain accepts `=`, so the loop aborts with the
unhandled-character panic on `=` and yields no token sequence. -/
theorem claim4_counterexample :
    tokenize "main(): -> u8 := \x7b\n  return 0;\n\x7d\n"
      = Except.error (LexError.unhandledChar '=') := rfl

/-- C4 amended: tokenize on the Scenario A literal aborts with the
unrecognized-character failure on `=`; on the prefix "main(): -> u8 " (up to
but excluding `:=`) it succeeds with exactly the claimed kind ordering
Identifier("main"), Parenthesis(open), Parenthesis(close),
Operator(TypeSpecifier), Whitespace, Operator(ReturnType), Whitespace,
Keyword("u8"), Whitespace, terminated by EndOfFile. -/
theorem claim4_scenarioA_amended :
    tokenize "main(): -> u8 := \x7b\n  return 0;\n\x7d\n"
        = Except.error (LexError.unhandledChar '=')
      ∧ tokenize "main(): -> u8 "
        = Except.ok ([Token.identifier "main", Token.parenthesis .opening,
            Token.parenthesis .closing, Token.operator .typeSpecifier,
            Token.whitespace, Token.operator .returnType, Token.whitespace,
            Token.keyword "u8", Token.whitespace, Token.endOfFile],
            (⟨1, 10⟩ : CaretPos)) :=
  ⟨rfl, rfl⟩

/-- C5: for every string in the fixed keyword set (exactly "u8" and
"return"), tokenizing the bare string yields a Keyword token followed only by
EndOfFile — never an Identifier token; in particular tokenize "u8" is exactly
[Keyword "u8", EndOfFile]. -/
theorem claim5_keyword_precedence (s : String) (h : is_keyword s = true) :
    tokenize s = Except.ok ([Token.keyword s, Token.endOfFile], (⟨1, 2⟩ : CaretPos)) := by
  have h2 : s = "u8" ∨ s = "return" := by
    simp only [is_keyword, Bool.or_eq_true, beq_iff_eq] at h
    exact h
  rcases h2 with rfl | rfl
  · rfl
  · rfl

theorem claim5_witness :
    tokenize "u8" = Except.ok ([Token.keyword "u8", Token.endOfFile], (⟨1, 2⟩ : CaretPos)) :=
  claim5_keyword_precedence "u8" rfl

/-- C6: for every input containing a character that matches none of the
classification rules, tokenize aborts with the unhandled-character failure,
which names an input character satisfying no head rule; and a caller only
ever gets a complete EndOfFile-terminated sequence or a failure, never a
partial sequence (the success value is always EndOfFile-terminated with
exactly one EndOfFile, and the error carries no tokens). -/
theorem claim6_unrecognized_aborts (s : String) :
    ((∃ c, c ∈ s.data ∧ recognizedChar c = false) →
        ∃ c2, c2 ∈ s.data ∧ headRecognized c2 = false
          ∧ tokenize s = Except.error (LexError.unhandledChar c2))
      ∧ ∀ toks p, tokenize s = Except.ok (toks, p) →
          toks.getLast? = some Token.endOfFile ∧ toks.count Token.endOfFile = 1 := by
  obtain ⟨mA, mB, mC, mD⟩ :=
    tokenizeLoop_master (s.data.length + 1) ⟨1, 1⟩ s.data (by omega)
  constructor
  · rintro ⟨c, hc, hcrec⟩
    cases hres : tokenize s with
    | ok v =>
      cases v with
      | mk toks p =>
        have h2 := (mA toks p hres).2 c hc
        rw [hcrec] at h2
        simp at h2
    | error e =>
      cases e with
      | unhandledChar c2 =>
        obtain ⟨hc2, hhd⟩ := mD c2 hres
        exact ⟨c2, hc2, hhd, rfl⟩
      | peekUnwrapPanic =>
        have h2 := mC hres c hc
        rw [hcrec] at h2
        simp at h2
      | fuelExhausted => exact absurd hres mB
  · intro toks p h
    obtain ⟨⟨front, rfl, hfr⟩, _⟩ := mA toks p h
    exact append_endOfFile_facts front hfr

theorem claim6_witness :
    ∃ c2, c2 ∈ String.data "$" ∧ headRecognized c2 = false
      ∧ tokenize "$" = Except.error (LexError.unhandledChar c2) :=
  (claim6_unrecognized_aborts "$").1 ⟨'$', by decide, by decide⟩

/-- C7 counterexample: on the input consisting of the single character `-`,
tokenize aborts via the lookahead `chars.peek().unwrap()` panic, which is not
the unrecognized-character failure (it is a different abort and names no
character), refuting the claim that a trailing `-` aborts with the
unrecognized-character failure. -/
theorem claim7_counterexample :
    tokenize "-" = Except.error LexError.peekUnwrapPanic
      ∧ LexError.peekUnwrapPanic ≠ LexError.unhandledChar '-' :=
  ⟨rfl, by decide⟩

/-- C7 amended: whenever the loop head is `-`: if the next character is `>`,
both characters are consumed and a single ReturnType operator token is
emitted (never two tokens); if a next character exists and is not `>`, the
loop aborts with the unrecognized-character failure naming `-`; and if `-` is
the last character of the input, the loop aborts with the lookahead unwrap
panic instead of the unrecognized-character failure. -/
theorem claim7_dash_lookahead (fuel : Nat) (pos : CaretPos) (next : Char)
    (rest : List Char) :
    tokenizeLoop (fuel + 1) pos ('-' :: '>' :: rest)
        = emitTok (Token.operator OperatorType.returnType)
            (tokenizeLoop fuel (pos.process_char (some '-')) rest)
      ∧ (next ≠ '>' → tokenizeLoop (fuel + 1) pos ('-' :: next :: rest)
          = Except.error (LexError.unhandledChar '-'))
      ∧ tokenizeLoop (fuel + 1) pos ['-'] = Except.error LexError.peekUnwrapPanic := by
  refine ⟨rfl, ?_, rfl⟩
  intro h
  rw [tokenizeLoop_cons]
  have hstep : classifyStep '-' (next :: rest)
      = if next = '>' then .emit (.operator .returnType) rest
        else .fail (.unhandledChar '-') := rfl
  rw [hstep, if_neg h]

theorem claim7_witness :
    tokenizeLoop 1 ⟨1, 1⟩ ('-' :: '>' :: [])
        = emitTok (Token.operator OperatorType.returnType)
            (tokenizeLoop 0 (CaretPos.process_char ⟨1, 1⟩ (some '-')) [])
      ∧ tokenizeLoop 1 ⟨1, 1⟩ ('-' :: 'a' :: [])
          = Except.error (LexError.unhandledChar '-')
      ∧ tokenizeLoop 1 ⟨1, 1⟩ ['-'] = Except.error LexError.peekUnwrapPanic :=
  ⟨(claim7_dash_lookahead 0 ⟨1, 1⟩ 'a' []).1,
   (claim7_dash_lookahead 0 ⟨1, 1⟩ 'a' []).2.1 (by decide),
   (claim7_dash_lookahead 0 ⟨1, 1⟩ 'a' []).2.2⟩

/-- C8: CaretPos::process_char from any state (line, column): given no
character it leaves the state unchanged; given a non-newline character it
yields (line, column + 1); given the newline character its net effect is
(line + 1, 1). -/
theorem claim8_process_char_spec (p : CaretPos) (c : Char) :
    p.process_char none = p
      ∧ (c ≠ '\n' → p.process_char (some c) = ⟨p.line, p.column + 1⟩)
      ∧ p.process_char (some '\n') = ⟨p.line + 1, 1⟩ := by
  refine ⟨rfl, ?_, ?_⟩
  · intro h
    simp [CaretPos.process_char, CaretPos.increment_column, h]
  · simp [CaretPos.process_char, CaretPos.increment_column, CaretPos.new_line,
      CaretPos.increment_line, CaretPos.reset_column]

theorem claim8_witness :
    CaretPos.process_char ⟨1, 1⟩ none = (⟨1, 1⟩ : CaretPos)
      ∧ CaretPos.process_char ⟨1, 1⟩ (some 'a') = (⟨1, 2⟩ : CaretPos)
      ∧ CaretPos.process_char ⟨1, 1⟩ (some '\n') = (⟨2, 1⟩ : CaretPos) :=
  ⟨(claim8_process_char_spec ⟨1, 1⟩ 'a').1,
   (claim8_process_char_spec ⟨1, 1⟩ 'a').2.1 (by decide),
   (claim8_process_char_spec ⟨1, 1⟩ 'a').2.2⟩

/-- C9: a maximal run of N >= 1 consecutive spaces yields exactly one
Whitespace token (the step emits one Whitespace and continues after the whole
run, with a result independent of N), so the outputs for runs of N and N + 1
spaces in the same surrounding context are identical. -/
theorem claim9_whitespace_collapsing (n : Nat) (rest : List Char) (pos : CaretPos)
    (fuel fuel2 : Nat) (hn : 1 ≤ n) (hrest : rest.head? ≠ some ' ')
    (hfuel : n + rest.length < fuel) (hfuel2 : n + 1 + rest.length < fuel2) :
    tokenizeLoop fuel pos (List.replicate n ' ' ++ rest)
        = emitTok Token.whitespace
            (tokenizeLoop (rest.length + 1) (pos.process_char (some ' ')) rest)
      ∧ tokenizeLoop fuel pos (List.replicate n ' ' ++ rest)
        = tokenizeLoop fuel2 pos (List.replicate (n + 1) ' ' ++ rest) := by
  have key : ∀ m : Nat, 1 ≤ m → ∀ f : Nat, m + rest.length < f →
      tokenizeLoop f pos (List.replicate m ' ' ++ rest)
        = emitTok Token.whitespace
            (tokenizeLoop (rest.length + 1) (pos.process_char (some ' ')) rest) := by
    intro m hm f hf
    cases m with
    | zero => omega
    | succ k =>
      cases f with
      | zero => omega
      | succ f2 =>
        have hcons : List.replicate (k + 1) ' ' ++ rest
            = ' ' :: (List.replicate k ' ' ++ rest) := by
          simp [List.replicate_succ]
        rw [hcons, tokenizeLoop_cons]
        have hstep : classifyStep ' ' (List.replicate k ' ' ++ rest)
            = .emit Token.whitespace (skipSpaces (List.replicate k ' ' ++ rest)) := rfl
        rw [hstep, skipSpaces_replicate_append, skipSpaces_of_head_ne rest hrest]
        simp only [List.length_replicate, List.length_append] at hf
        exact congrArg (emitTok Token.whitespace)
          (tokenizeLoop_fuel_congr f2 (rest.length + 1) _ rest (by omega) (by omega))
  refine ⟨key n hn fuel hfuel, ?_⟩
  rw [key n hn fuel hfuel, key (n + 1) (by omega) fuel2 (by omega)]

theorem claim9_witness :
    tokenizeLoop 3 ⟨1, 1⟩ (List.replicate 1 ' ' ++ ['a'])
        = emitTok Token.whitespace
            (tokenizeLoop 2 (CaretPos.process_char ⟨1, 1⟩ (some ' ')) ['a'])
      ∧ tokenizeLoop 3 ⟨1, 1⟩ (List.replicate 1 ' ' ++ ['a'])
        = tokenizeLoop 4 ⟨1, 1⟩ (List.replicate 2 ' ' ++ ['a']) :=
  claim9_whitespace_collapsing 1 ['a'] ⟨1, 1⟩ 3 4 (by decide) (by decide)
    (by decide) (by decide)

/-- C10: every Operator token tokenize emits has one of only the seven
operator kinds GenericBlockBegin, GenericBlockEnd, StatementTerminator,
TypeSpecifier, CommaSeparator, ReturnType, Addition (the members with
emittedOperator = true); the other 34 members of the operator enumeration are
never produced. -/
theorem claim10_operator_kinds (s : String) (toks : List Token) (p : CaretPos)
    (h : tokenize s = Except.ok (toks, p)) :
    ∀ t, t ∈ toks → ∀ op, t = Token.operator op → emittedOperator op = true := by
  obtain ⟨mA, _, _, _⟩ :=
    tokenizeLoop_master (s.data.length + 1) ⟨1, 1⟩ s.data (by omega)
  obtain ⟨⟨front, rfl, hfr⟩, _⟩ := mA toks p h
  intro t ht op hop
  subst hop
  rcases List.mem_append.mp ht with h2 | h2
  · have h3 := hfr _ h2
    simpa [emitOkB] using h3
  · simp at h2

theorem claim10_witness : emittedOperator OperatorType.addition = true :=
  claim10_operator_kinds "+" [Token.operator OperatorType.addition, Token.endOfFile]
    ⟨1, 2⟩ rfl (Token.operator OperatorType.addition) (List.mem_cons_self _ _)
    OperatorType.addition rfl
